import Mathlib

/-!
Verification of the Clay Magnet addon (src/clay_magnet_addon.py) against its
specification. The addon is a single-file Blender plugin: a tag registry
mapping an armature to a set of bone names, tag/untag/filter commands, a
proximity-pick command that projects tagged bones to screen space and picks
the nearest within a hitbox radius, and a preference store.

Embedding conventions:
  - Bone names and object types are strings, as in the source.
  - Geometry uses exact rationals. The source compares Euclidean distances
    (nonnegative floats) with the unsquared radius; we compare squared
    distances with the squared radius, which preserves every comparison
    since squaring is strictly monotone on nonnegative reals.
  - The ring operations on the rationals are spelled through mkRat so that
    concrete instances evaluate inside the kernel; the lemmas qadd_eq,
    qsub_eq and qmul_eq prove them equal to the standard operations.
  - Host projection (location_3d_to_region_2d) and world matrices are
    opaque parameters of the pick environment: projection returns an
    Option (none models a point behind the camera; the source tests the
    result before using it).
  - Python exceptions are modelled with Except / Option: lookup of a tag
    name that no longer names a bone yields none (the KeyError caught by
    the outer try of the pick loop), reading the vertices of a custom
    display shape yields an Except (the inner try).
  - The per-armature entry of the global dict tagged_bones is an
    Option (List String): none models absence of the key, the list models
    the Python set with membership semantics (iteration order of a Python
    set is some order of the list).
-/

/-- Exact rational addition written through mkRat (kernel-evaluable);
equal to the standard addition by qadd_eq. -/
def qadd (a b : ℚ) : ℚ := mkRat (a.num * b.den + b.num * a.den) (a.den * b.den)

/-- Exact rational subtraction written through mkRat; equal to the
standard subtraction by qsub_eq. -/
def qsub (a b : ℚ) : ℚ := mkRat (a.num * b.den - b.num * a.den) (a.den * b.den)

/-- Exact rational multiplication written through mkRat; equal to the
standard multiplication by qmul_eq. -/
def qmul (a b : ℚ) : ℚ := mkRat (a.num * b.num) (a.den * b.den)

theorem qadd_eq (a b : ℚ) : qadd a b = a + b := by
  rw [Rat.add_def, Rat.normalize_eq_mkRat]; rfl

theorem qsub_eq (a b : ℚ) : qsub a b = a - b := by
  rw [Rat.sub_def, Rat.normalize_eq_mkRat]; rfl

theorem qmul_eq (a b : ℚ) : qmul a b = a * b := by
  rw [Rat.mul_def, Rat.normalize_eq_mkRat]; rfl

/-- A 3D point with exact rational coordinates. -/
structure Vec3 where
  x : ℚ
  y : ℚ
  z : ℚ
deriving DecidableEq

/-- A 2D (screen-space) point. -/
structure Vec2 where
  x : ℚ
  y : ℚ
deriving DecidableEq

/-- Componentwise vector addition, used by the custom-shape centroid. -/
def Vec3.add (a b : Vec3) : Vec3 := ⟨a.x + b.x, a.y + b.y, a.z + b.z⟩

/-- sum(verts, Vector()) / len(verts): componentwise mean of a vertex
list (line 163 of the source). -/
def centroid (vs : List Vec3) : Vec3 :=
  let s := vs.foldl Vec3.add ⟨0, 0, 0⟩
  let n : ℚ := vs.length
  ⟨s.x / n, s.y / n, s.z / n⟩

/-- Squared Euclidean distance in screen space: the square of
(mouse_pos - screen_pos).length on line 171 of the source. -/
def dist2 (a b : Vec2) : ℚ :=
  qadd (qmul (qsub a.x b.x) (qsub a.x b.x)) (qmul (qsub a.y b.y) (qsub a.y b.y))

/-- The squared distance agrees with the textbook formula. -/
theorem dist2_eq (a b : Vec2) :
    dist2 a b = (a.x - b.x) * (a.x - b.x) + (a.y - b.y) * (a.y - b.y) := by
  rw [dist2, qadd_eq, qmul_eq, qmul_eq, qsub_eq, qsub_eq]

/-- The custom display shape attached to a bone (bone.custom_shape): a mesh
object with its own world matrix and vertex data. Reading the vertex data
may raise (the inner try, lines 159-166), modelled by Except. -/
structure CustomShape where
  meshWorld : Vec3 → Vec3
  readVerts : Except String (List Vec3)

/-- A pose bone: name, head position, optional custom display shape, and the
selection flag (bone.bone.select). -/
structure Bone where
  name : String
  head : Vec3
  custom_shape : Option CustomShape
  select : Bool

/-- The pose bones of the active armature (armature.pose.bones). -/
structure Armature where
  bones : List Bone

/-- Host-provided state fixed for one invocation of the pick operator:
mouse position, the armature world matrix, the region projection
(location_3d_to_region_2d with region and rv3d fixed; none = not
projectable), and the squared hitbox radius (the square of the hitbox_size
preference read on line 149). -/
structure PickEnv where
  mouse : Vec2
  armWorld : Vec3 → Vec3
  project : Vec3 → Option Vec2
  hitbox2 : ℚ

/-- armature.pose.bones[bone_name] (line 154): lookup by name; none models
the KeyError that the outer try of the pick loop catches. -/
def findBone (arm : Armature) (nm : String) : Option Bone :=
  arm.bones.find? (fun b => b.name == nm)

/-- The anchor point of a candidate (lines 155-166 of the source):
bone.head, overridden by the world-space centroid of the custom shape
vertices when a custom shape is attached, its vertex data can be read, and
the vertex list is nonempty; a read failure is caught, logged, and leaves
the head in place. -/
def boneCenter (env : PickEnv) (b : Bone) : Vec3 :=
  match b.custom_shape with
  | none => b.head
  | some cs =>
    match cs.readVerts with
    | .error _ => b.head
    | .ok vcos =>
      let verts := vcos.map (fun v => env.armWorld (cs.meshWorld v))
      if verts.isEmpty then b.head else centroid verts

/-- One candidate of the scan: the bone found under a tagged name together
with its squared screen distance to the mouse, when the lookup and the
projection both succeed (lines 154-171). -/
def candBone (env : PickEnv) (arm : Armature) (nm : String) : Option (Bone × ℚ) :=
  match findBone arm nm with
  | none => none
  | some b =>
    match env.project (boneCenter env b) with
    | none => none
    | some sp => some (b, dist2 env.mouse sp)

/-- The squared screen distance of a candidate, when defined. -/
def candDist (env : PickEnv) (arm : Armature) (nm : String) : Option ℚ :=
  (candBone env arm nm).map Prod.snd

/-- Is a new squared distance strictly below the running minimum
(closest_dist, initially infinity)? -/
def improves (d : ℚ) (acc : Option (Bone × ℚ)) : Bool :=
  match acc with
  | none => true
  | some p => decide (d < p.2)

/-- One iteration of the pick loop (lines 152-176): a failed lookup or
projection leaves the accumulator; otherwise the candidate replaces it when
dist < hitbox_size and dist < closest_dist (line 172). -/
def scanStep (env : PickEnv) (arm : Armature) (acc : Option (Bone × ℚ)) (nm : String) :
    Option (Bone × ℚ) :=
  match candBone env arm nm with
  | none => acc
  | some (b, d) =>
    if decide (d < env.hitbox2) && improves d acc then some (b, d) else acc

/-- The whole scan over the tagged names of the active armature:
closest_bone together with closest_dist after the loop (lines 146-176). -/
def claymagnetScan (env : PickEnv) (arm : Armature) (names : List String) :
    Option (Bone × ℚ) :=
  names.foldl (scanStep env arm) none

/-- The selection-and-transform tail of the invoke handler (lines 178-193):
with no chosen bone, nothing happens; otherwise the chosen bone is
selected, and without shift every other bone is deselected and the
translate interaction is started iff the gizmo-user scene flag is off.
Bones are identified by name (Blender bone names are unique within an
armature). Returns the updated bone list and the transform-started flag. -/
def applyPick (arm : Armature) (chosen : Option (Bone × ℚ))
    (shift gizmo_user : Bool) : List Bone × Bool :=
  match chosen with
  | none => (arm.bones, false)
  | some (b, _) =>
    let bones1 := arm.bones.map fun x =>
      if x.name = b.name then { x with select := true } else x
    if shift then (bones1, false)
    else
      let bones2 := bones1.map fun x =>
        if x.name = b.name then x else { x with select := false }
      (bones2, !gizmo_user)

/-- CLAYMAGNET_OT_select_transform.invoke (lines 139-193): scan the tagged
names (no candidates when tagged_bones has no entry for the armature,
line 151), then apply the selection and transform effects. -/
def select_transform_invoke (env : PickEnv) (arm : Armature)
    (reg : Option (List String)) (shift gizmo_user : Bool) : List Bone × Bool :=
  applyPick arm
    (match reg with
      | none => none
      | some names => claymagnetScan env arm names)
    shift gizmo_user

/-- The names of the currently selected bones of a bone list, used to state
the selection-effect claims. -/
def selectedNames (bs : List Bone) : List String :=
  (bs.filter (fun b => b.select)).map Bone.name

/-- The tag-registry entry of one armature: none models absence of the
armature key in the global dict tagged_bones, a list models the stored
Python set of bone names with membership semantics. -/
def TagState : Type := Option (List String)

/-- Set insertion (set.add on line 63): append the name unless present. -/
def insertName (s : List String) (nm : String) : List String :=
  if nm ∈ s then s else s ++ [nm]

/-- Set removal (set.discard on line 83): drop every occurrence. -/
def removeName (s : List String) (nm : String) : List String :=
  s.filter (fun x => !(x == nm))

/-- Membership in the per-armature tag entry: a bone name is tagged iff the
armature has an entry and the name is in its set. -/
def taggedMem (st : TagState) (nm : String) : Bool :=
  match st with
  | none => false
  | some s => s.contains nm

/-- The registry mutation of CLAYMAGNET_OT_tag_bone.execute on a valid
armature (lines 59-63): create an empty entry when the armature has none,
then add the name of every selected pose bone. -/
def tagBoneBody (st : TagState) (selected : List String) : TagState :=
  let s := match st with
    | none => []
    | some s => s
  some (selected.foldl insertName s)

/-- The registry mutation of CLAYMAGNET_OT_untag_bone.execute on a valid
armature (lines 81-83): when the armature has an entry, discard the name of
every selected pose bone; otherwise do nothing. -/
def untagBoneBody (st : TagState) (selected : List String) : TagState :=
  match st with
  | none => none
  | some s => some (selected.foldl removeName s)

/-- The selection mutation of CLAYMAGNET_OT_find_tagged.execute on a valid
armature (lines 101-103): when the armature has an entry, set the selection
flag of every pose bone to membership of its name in the entry; otherwise
do nothing. -/
def findTaggedBody (st : TagState) (bones : List Bone) : List Bone :=
  match st with
  | none => bones
  | some s => bones.map (fun b => { b with select := s.contains b.name })

/-- A host scene object (context.object or a member of
context.selected_objects): name, type string and mode string. -/
structure SceneObj where
  name : String
  objType : String
  mode : String
deriving DecidableEq

/-- The validity check shared by the tag, untag and filter commands
(for example lines 54-57): an active object exists and its type is
ARMATURE. -/
def isValidArmature (active : Option SceneObj) : Bool :=
  match active with
  | none => false
  | some o => o.objType == "ARMATURE"

/-- Operator return status ({FINISHED} / {CANCELLED}). -/
inductive OpStatus where
  | FINISHED
  | CANCELLED
deriving DecidableEq

/-- The observable outcome of one operator execution: status, the state it
acts on, and the reported user-visible message, if any. -/
structure OpResult (σ : Type) where
  status : OpStatus
  state : σ
  report : Option String

/-- CLAYMAGNET_OT_tag_bone.execute (lines 53-66): cancel with an error
report on an invalid context, otherwise mutate the tag entry and finish. -/
def tagBoneExecute (active : Option SceneObj) (selected : List String)
    (st : TagState) : OpResult TagState :=
  if isValidArmature active then
    ⟨.FINISHED, tagBoneBody st selected, none⟩
  else
    ⟨.CANCELLED, st, some "Select an armature first!"⟩

/-- CLAYMAGNET_OT_untag_bone.execute (lines 75-86). -/
def untagBoneExecute (active : Option SceneObj) (selected : List String)
    (st : TagState) : OpResult TagState :=
  if isValidArmature active then
    ⟨.FINISHED, untagBoneBody st selected, none⟩
  else
    ⟨.CANCELLED, st, some "Need an armature, buddy!"⟩

/-- CLAYMAGNET_OT_find_tagged.execute (lines 95-106): the state acted on is
the pose-bone list of the active armature. -/
def findTaggedExecute (active : Option SceneObj) (st : TagState)
    (bones : List Bone) : OpResult (List Bone) :=
  if isValidArmature active then
    ⟨.FINISHED, findTaggedBody st bones, none⟩
  else
    ⟨.CANCELLED, bones, some "Pick an armature first!"⟩

/-- CLAYMAGNET_OT_switch_pose_mode.execute (lines 115-126): cancel when no
selected object is an armature, otherwise set every selected armature to
POSE mode. -/
def switchPoseModeExecute (selectedObjs : List SceneObj) : OpResult (List SceneObj) :=
  let armatures := selectedObjs.filter (fun o => o.objType == "ARMATURE")
  if armatures.isEmpty then
    ⟨.CANCELLED, selectedObjs, some "Select some armatures first!"⟩
  else
    ⟨.FINISHED,
      selectedObjs.map (fun o =>
        if o.objType == "ARMATURE" then { o with mode := "POSE" } else o),
      none⟩

/-- A property declared on the preference class, recorded as its attribute
name and its bpy.props constructor name. -/
structure PropertyDef where
  name : String
  kind : String
deriving DecidableEq

/-- The properties declared on CLAYMAGNET_Preferences (lines 24-39):
hitbox_size (FloatProperty) and restrict_pose_mode (BoolProperty). -/
def claymagnetPreferencesProps : List PropertyDef :=
  [⟨"hitbox_size", "FloatProperty"⟩, ⟨"restrict_pose_mode", "BoolProperty"⟩]

/-- The properties surfaced by CLAYMAGNET_Preferences.draw (lines 41-44):
one layout.prop line per property. -/
def claymagnetPreferencesDrawn : List String :=
  ["hitbox_size", "restrict_pose_mode"]

/-! ### Concrete fixtures used by witnesses and counterexamples -/

/-- A concrete pick environment: mouse at the origin, identity armature
matrix, orthographic projection of the z = 0 plane, hitbox radius 50
(squared: 2500, the default hitbox_size preference). -/
def envW : PickEnv :=
  { mouse := ⟨0, 0⟩
    armWorld := id
    project := fun v => if v.z = 0 then some ⟨v.x, v.y⟩ else none
    hitbox2 := 2500 }

/-- A bone projecting to distance 5 (squared: 25) from the mouse. -/
def boneA : Bone := { name := "A", head := ⟨3, 4, 0⟩, custom_shape := none, select := false }

/-- A selected bone projecting to distance 10 (squared: 100). -/
def boneB : Bone := { name := "B", head := ⟨10, 0, 0⟩, custom_shape := none, select := true }

/-- A custom shape whose vertex data cannot be read. -/
def shapeBad : CustomShape := { meshWorld := id, readVerts := .error "AttributeError" }

/-- A bone with a failing custom shape, projecting to distance 5. -/
def boneC : Bone := { name := "C", head := ⟨0, 5, 0⟩, custom_shape := some shapeBad, select := false }

/-- A two-bone armature. -/
def armW : Armature := ⟨[boneA, boneB]⟩

/-- A one-bone armature whose only bone has a failing custom shape. -/
def armC : Armature := ⟨[boneC]⟩

/-- A selected bone used by the filter counterexample. -/
def boneHip : Bone := { name := "hip", head := ⟨0, 0, 0⟩, custom_shape := none, select := true }

/-- The same environment with a small hitbox radius 2 (squared: 4), below
every candidate distance of armW. -/
def envSmall : PickEnv :=
  { mouse := ⟨0, 0⟩
    armWorld := id
    project := fun v => if v.z = 0 then some ⟨v.x, v.y⟩ else none
    hitbox2 := 4 }

/-- A valid active armature object. -/
def armObjW : SceneObj := { name := "Rig", objType := "ARMATURE", mode := "POSE" }

/-- A non-armature scene object. -/
def meshObjW : SceneObj := { name := "Cube", objType := "MESH", mode := "OBJECT" }

/-! ### Membership lemmas for the tag registry -/

theorem mem_insertName (s : List String) (a nm : String) :
    nm ∈ insertName s a ↔ nm ∈ s ∨ nm = a := by
  unfold insertName
  split
  · rename_i h
    constructor
    · exact Or.inl
    · rintro (hs | rfl)
      · exact hs
      · exact h
  · simp [List.mem_append]

theorem mem_foldl_insertName (sel : List String) (s : List String) (nm : String) :
    nm ∈ sel.foldl insertName s ↔ nm ∈ s ∨ nm ∈ sel := by
  induction sel generalizing s with
  | nil => simp
  | cons a tl ih =>
    simp only [List.foldl_cons, ih, mem_insertName, List.mem_cons]
    tauto

theorem mem_removeName (s : List String) (a nm : String) :
    nm ∈ removeName s a ↔ nm ∈ s ∧ nm ≠ a := by
  simp [removeName, List.mem_filter]

theorem mem_foldl_removeName (sel : List String) (s : List String) (nm : String) :
    nm ∈ sel.foldl removeName s ↔ nm ∈ s ∧ nm ∉ sel := by
  induction sel generalizing s with
  | nil => simp
  | cons a tl ih =>
    simp only [List.foldl_cons, ih, mem_removeName, List.mem_cons]
    tauto

/-! ### Lemmas about the proximity-pick scan -/

/-- Rewriting equation: a step over a missing candidate keeps the
accumulator. -/
theorem scanStep_none (env : PickEnv) (arm : Armature)
    (acc : Option (Bone × ℚ)) (nm : String) (h : candBone env arm nm = none) :
    scanStep env arm acc nm = acc := by
  unfold scanStep
  rw [h]

/-- Rewriting equation: a step over a present candidate is the guarded
update of the accumulator. -/
theorem scanStep_some (env : PickEnv) (arm : Armature)
    (acc : Option (Bone × ℚ)) (nm : String) (b : Bone) (d : ℚ)
    (h : candBone env arm nm = some (b, d)) :
    scanStep env arm acc nm
      = if decide (d < env.hitbox2) && improves d acc then some (b, d) else acc := by
  unfold scanStep
  rw [h]

theorem scanStep_preserves_lt (env : PickEnv) (arm : Armature)
    (acc : Option (Bone × ℚ)) (nm : String)
    (h : ∀ p, acc = some p → p.2 < env.hitbox2) :
    ∀ p, scanStep env arm acc nm = some p → p.2 < env.hitbox2 := by
  intro p hp
  cases hcb : candBone env arm nm with
  | none => rw [scanStep_none env arm acc nm hcb] at hp; exact h p hp
  | some q =>
    obtain ⟨b, d⟩ := q
    rw [scanStep_some env arm acc nm b d hcb] at hp
    by_cases hcond : (decide (d < env.hitbox2) && improves d acc) = true
    · rw [if_pos hcond] at hp
      cases hp
      exact of_decide_eq_true (Bool.and_eq_true_iff.mp hcond).1
    · rw [if_neg hcond] at hp
      exact h p hp

theorem scanStep_mono (env : PickEnv) (arm : Armature)
    (acc : Option (Bone × ℚ)) (nm : String) (q : Bone × ℚ) (hacc : acc = some q) :
    ∃ r, scanStep env arm acc nm = some r ∧ r.2 ≤ q.2 := by
  cases hcb : candBone env arm nm with
  | none => exact ⟨q, by rw [scanStep_none env arm acc nm hcb]; exact hacc, le_refl _⟩
  | some p =>
    obtain ⟨b, d⟩ := p
    rw [scanStep_some env arm acc nm b d hcb]
    by_cases hcond : (decide (d < env.hitbox2) && improves d acc) = true
    · refine ⟨(b, d), by rw [if_pos hcond], ?_⟩
      have himp : improves d acc = true := (Bool.and_eq_true_iff.mp hcond).2
      rw [hacc] at himp
      unfold improves at himp
      exact le_of_lt (of_decide_eq_true himp)
    · exact ⟨q, by rw [if_neg hcond]; exact hacc, le_refl _⟩

/-- The fold invariant of the pick loop: a result below the threshold, drawn
from the processed candidates (or inherited from the accumulator), no worse
than the accumulator, and no worse than any processed candidate. -/
theorem scan_foldl_aux (env : PickEnv) (arm : Armature) :
    ∀ (names : List String) (acc : Option (Bone × ℚ)),
      (∀ p, acc = some p → p.2 < env.hitbox2) →
      ∀ p, List.foldl (scanStep env arm) acc names = some p →
        (acc = some p ∨
          (p.2 < env.hitbox2 ∧ ∃ nm ∈ names, candBone env arm nm = some p)) ∧
        (∀ q, acc = some q → p.2 ≤ q.2) ∧
        (∀ nm ∈ names, ∀ d, candDist env arm nm = some d → p.2 ≤ d) := by
  intro names
  induction names with
  | nil =>
    intro acc hInv p hp
    rw [List.foldl_nil] at hp
    refine ⟨Or.inl hp, ?_, ?_⟩
    · intro q hq
      rw [hp] at hq
      cases hq
      exact le_refl _
    · intro nm hm
      exact absurd hm (List.not_mem_nil nm)
  | cons nm tl ih =>
    intro acc hInv p hp
    rw [List.foldl_cons] at hp
    have hInv2 := scanStep_preserves_lt env arm acc nm hInv
    obtain ⟨hA, hB, hC⟩ := ih (scanStep env arm acc nm) hInv2 p hp
    have hplt : p.2 < env.hitbox2 := by
      rcases hA with hA | ⟨hlt, _⟩
      · exact hInv2 p hA
      · exact hlt
    refine ⟨?_, ?_, ?_⟩
    · rcases hA with hA | ⟨hlt, nm2, hnm2, hcb2⟩
      · cases hcb : candBone env arm nm with
        | none =>
          rw [scanStep_none env arm acc nm hcb] at hA
          exact Or.inl hA
        | some q =>
          obtain ⟨b, d⟩ := q
          rw [scanStep_some env arm acc nm b d hcb] at hA
          by_cases hcond : (decide (d < env.hitbox2) && improves d acc) = true
          · rw [if_pos hcond] at hA
            cases hA
            exact Or.inr ⟨hplt, nm, List.mem_cons_self nm tl, hcb⟩
          · rw [if_neg hcond] at hA
            exact Or.inl hA
      · exact Or.inr ⟨hlt, nm2, List.mem_cons_of_mem nm hnm2, hcb2⟩
    · intro q hq
      obtain ⟨r, hr, hrle⟩ := scanStep_mono env arm acc nm q hq
      exact le_trans (hB r hr) hrle
    · intro nm2 hmem d hd
      rcases List.mem_cons.mp hmem with rfl | hmem2
      · obtain ⟨⟨b, d0⟩, hcb, hd0⟩ : ∃ q, candBone env arm nm2 = some q ∧ q.2 = d := by
          unfold candDist at hd
          cases hcb : candBone env arm nm2 with
          | none => rw [hcb] at hd; cases hd
          | some q =>
            rw [hcb] at hd
            cases hd
            exact ⟨q, rfl, rfl⟩
        cases hd0
        by_cases hcond : (decide (d0 < env.hitbox2) && improves d0 acc) = true
        · have hacc2 : scanStep env arm acc nm2 = some (b, d0) := by
            rw [scanStep_some env arm acc nm2 b d0 hcb, if_pos hcond]
          exact hB (b, d0) hacc2
        · have hacc2 : scanStep env arm acc nm2 = acc := by
            rw [scanStep_some env arm acc nm2 b d0 hcb, if_neg hcond]
          by_cases hdh : d0 < env.hitbox2
          · have himp : improves d0 acc = false := by
              cases himpc : improves d0 acc
              · rfl
              · exact absurd (by simp [himpc, hdh] : (decide (d0 < env.hitbox2) && improves d0 acc) = true) hcond
            cases hacc : acc with
            | none => rw [hacc] at himp; exact absurd himp (by simp [improves])
            | some q0 =>
              have hq0 : ¬ d0 < q0.2 := by
                rw [hacc] at himp
                unfold improves at himp
                simpa using himp
              have hple : p.2 ≤ q0.2 := hB q0 (by rw [hacc2, hacc])
              exact le_trans hple (le_of_not_lt hq0)
          · exact le_of_lt (lt_of_lt_of_le hplt (le_of_not_lt hdh))
      · exact hC nm2 hmem2 d hd

/-- A candidate returned by the scan is a bone of the armature. -/
theorem candBone_mem (env : PickEnv) (arm : Armature) (nm : String)
    (b : Bone) (d : ℚ) (h : candBone env arm nm = some (b, d)) : b ∈ arm.bones := by
  unfold candBone at h
  split at h
  · cases h
  · rename_i b0 hf
    split at h
    · cases h
    · cases h
      exact List.mem_of_find?_eq_some hf

/-- A bone chosen by the whole scan is a bone of the armature. -/
theorem scan_mem (env : PickEnv) (arm : Armature) (names : List String)
    (b : Bone) (d : ℚ) (h : claymagnetScan env arm names = some (b, d)) :
    b ∈ arm.bones := by
  obtain ⟨hA, -, -⟩ := scan_foldl_aux env arm names none (by intro p hp; cases hp) (b, d) h
  rcases hA with hA | ⟨-, nm, -, hcb⟩
  · cases hA
  · exact candBone_mem env arm nm b d hcb

/-- When every candidate distance is at or beyond the threshold, the scan
returns no bone. -/
theorem scan_none_of_far (env : PickEnv) (arm : Armature) :
    ∀ names : List String,
      (∀ nm ∈ names, ∀ d, candDist env arm nm = some d → env.hitbox2 ≤ d) →
      claymagnetScan env arm names = none := by
  intro names
  induction names with
  | nil => intro _; rfl
  | cons nm tl ih =>
    intro h
    unfold claymagnetScan
    rw [List.foldl_cons]
    have hstep : scanStep env arm none nm = none := by
      cases hcb : candBone env arm nm with
      | none => exact scanStep_none env arm none nm hcb
      | some q =>
        obtain ⟨b, d⟩ := q
        have hle : env.hitbox2 ≤ d := by
          refine h nm (List.mem_cons_self nm tl) d ?_
          unfold candDist
          rw [hcb]
          rfl
        have hdec : decide (d < env.hitbox2) = false := decide_eq_false (not_lt.mpr hle)
        rw [scanStep_some env arm none nm b d hcb, hdec]
        rfl
    rw [hstep]
    exact ih fun nm2 hm d hd => h nm2 (List.mem_cons_of_mem nm hm) d hd

/-! ### Lemmas about the selection update of applyPick -/

/-- Setting one bone selected never deselects another: every selected name
stays selected. -/
theorem selectedNames_mono_select (bs : List Bone) (nm0 : String) (n : String)
    (h : n ∈ selectedNames bs) :
    n ∈ selectedNames (bs.map fun x =>
        if x.name = nm0 then { x with select := true } else x) := by
  unfold selectedNames at h ⊢
  simp only [List.mem_map, List.mem_filter] at h ⊢
  obtain ⟨x, ⟨hx, hsel⟩, rfl⟩ := h
  have hsel2 :
      ((fun x => if x.name = nm0 then { x with select := true } else x) x).select
        = true := by
    by_cases hxn : x.name = nm0 <;> simp [hxn, hsel]
  have hname :
      ((fun x => if x.name = nm0 then { x with select := true } else x) x).name
        = x.name := by
    by_cases hxn : x.name = nm0 <;> simp [hxn]
  exact ⟨_, ⟨⟨x, hx, rfl⟩, hsel2⟩, hname⟩

/-- After selecting the chosen name and then deselecting every other name,
the selected names are exactly the occurrences of the chosen name. -/
theorem selectedNames_solo (bs : List Bone) (nm0 : String) :
    selectedNames ((bs.map fun x =>
        if x.name = nm0 then { x with select := true } else x).map fun x =>
        if x.name = nm0 then x else { x with select := false })
      = (bs.filter fun x => x.name == nm0).map Bone.name := by
  induction bs with
  | nil => rfl
  | cons y tl ih =>
    by_cases hy : y.name = nm0
    · simp only [List.map_cons, List.filter_cons, selectedNames, if_pos hy,
        show ({ y with select := true } : Bone).name = nm0 from hy, if_pos,
        beq_iff_eq, hy, beq_self_eq_true, List.filter]
      exact congrArg (List.cons nm0) ih
    · have hbeq : (y.name == nm0) = false := beq_eq_false_iff_ne.mpr hy
      simp only [selectedNames, List.map_cons, if_neg hy, List.filter_cons, hbeq]
      simpa [selectedNames] using ih

/-- With pairwise distinct bone names, filtering to one present name keeps
exactly one bone. -/
theorem filter_name_single (bs : List Bone) (nm0 : String)
    (hnd : (bs.map Bone.name).Nodup) (hex : ∃ x ∈ bs, x.name = nm0) :
    (bs.filter fun x => x.name == nm0).map Bone.name = [nm0] := by
  induction bs with
  | nil =>
    obtain ⟨x, hx, _⟩ := hex
    exact absurd hx (List.not_mem_nil x)
  | cons y tl ih =>
    rw [List.map_cons, List.nodup_cons] at hnd
    obtain ⟨hy_notin, hnd_tl⟩ := hnd
    rw [List.filter_cons]
    by_cases hy : y.name = nm0
    · have hbeq : (y.name == nm0) = true := beq_iff_eq.mpr hy
      rw [hbeq]
      have hnone : tl.filter (fun x => x.name == nm0) = [] := by
        rw [List.filter_eq_nil_iff]
        intro x hx
        simp only [beq_iff_eq]
        intro hxn
        exact hy_notin (hy ▸ hxn ▸ List.mem_map_of_mem Bone.name hx)
      simp [hnone, hy]
    · have hbeq : (y.name == nm0) = false := beq_eq_false_iff_ne.mpr hy
      rw [hbeq]
      refine ih hnd_tl ?_
      obtain ⟨x, hx, hxn⟩ := hex
      rcases List.mem_cons.mp hx with rfl | hx2
      · exact absurd hxn hy
      · exact ⟨x, hx2, hxn⟩

/-! ### Claim C1: the chosen bone is the nearest within the hitbox -/

/-- Claim C1: whenever the proximity-pick scan chooses a bone, the squared
screen distance of that bone is strictly below the squared hitbox radius,
the bone is one of the tagged candidates, and its distance is minimal among
all tagged candidates whose lookup and projection succeed. -/
theorem select_transform_picks_nearest (env : PickEnv) (arm : Armature)
    (names : List String) (b : Bone) (d : ℚ)
    (h : claymagnetScan env arm names = some (b, d)) :
    d < env.hitbox2 ∧
    (∃ nm ∈ names, candBone env arm nm = some (b, d)) ∧
    ∀ nm ∈ names, ∀ e, candDist env arm nm = some e → d ≤ e := by
  obtain ⟨hA, -, hC⟩ :=
    scan_foldl_aux env arm names none (fun p hp => by cases hp) (b, d) h
  rcases hA with hA | ⟨hlt, hex⟩
  · cases hA
  · exact ⟨hlt, hex, hC⟩

/-- Witness for claim C1: with candidates at squared distances 25 and 100
and squared hitbox 2500, bone A at distance 25 is chosen and is minimal. -/
theorem select_transform_picks_nearest_witness :
    claymagnetScan envW armW ["A", "B"] = some (boneA, 25) ∧
    ((25 : ℚ) < envW.hitbox2 ∧
      (∃ nm ∈ ["A", "B"], candBone envW armW nm = some (boneA, 25)) ∧
      ∀ nm ∈ ["A", "B"], ∀ e, candDist envW armW nm = some e → (25 : ℚ) ≤ e) :=
  ⟨rfl, select_transform_picks_nearest envW armW ["A", "B"] boneA 25 rfl⟩

/-! ### Claim C2: no candidate below the threshold means no effect -/

/-- Claim C2: when the tag registry has no entry for the active armature,
or no tagged candidate has its squared distance below the squared hitbox
radius, the invoke handler leaves the selection flag of every bone
unchanged and starts no transform interaction. -/
theorem no_candidate_no_selection_change (env : PickEnv) (arm : Armature)
    (reg : Option (List String)) (shift giz : Bool)
    (h : reg = none ∨ ∃ names, reg = some names ∧
        ∀ nm ∈ names, ∀ d, candDist env arm nm = some d → env.hitbox2 ≤ d) :
    select_transform_invoke env arm reg shift giz = (arm.bones, false) := by
  rcases h with rfl | ⟨names, rfl, hfar⟩
  · rfl
  · show applyPick arm (claymagnetScan env arm names) shift giz = (arm.bones, false)
    rw [scan_none_of_far env arm names hfar]
    rfl

/-- Witness for claim C2: with squared hitbox 4 both candidates (squared
distances 25 and 100) are out of reach, and the invoke handler is a
no-op. -/
theorem no_candidate_no_selection_change_witness :
    ((some ["A", "B"] : Option (List String)) = none ∨
      ∃ names, (some ["A", "B"] : Option (List String)) = some names ∧
        ∀ nm ∈ names, ∀ d, candDist envSmall armW nm = some d → envSmall.hitbox2 ≤ d) ∧
    select_transform_invoke envSmall armW (some ["A", "B"]) false false
      = (armW.bones, false) := by
  have hfar : ∀ nm ∈ ["A", "B"], ∀ d,
      candDist envSmall armW nm = some d → envSmall.hitbox2 ≤ d := by
    intro nm hm d hd
    rcases List.mem_cons.mp hm with rfl | hm2
    · rw [show candDist envSmall armW "A" = some 25 from by decide] at hd
      cases hd
      decide
    · rcases List.mem_cons.mp hm2 with rfl | hm3
      · rw [show candDist envSmall armW "B" = some 100 from by decide] at hd
        cases hd
        decide
      · exact absurd hm3 (List.not_mem_nil nm)
  exact ⟨Or.inr ⟨["A", "B"], rfl, hfar⟩,
    no_candidate_no_selection_change envSmall armW (some ["A", "B"]) false false
      (Or.inr ⟨["A", "B"], rfl, hfar⟩)⟩

/-! ### Claim C3: the selection effect of a pick -/

/-- Claim C3: when a bone is chosen, a shift pick keeps every previously
selected bone selected, and a plain pick leaves exactly one bone of the
armature selected, namely the chosen one (bone names are unique within an
armature, as in Blender). -/
theorem pick_selection_effect (env : PickEnv) (arm : Armature)
    (names : List String) (giz : Bool) (b : Bone) (d : ℚ)
    (hnd : (arm.bones.map Bone.name).Nodup)
    (h : claymagnetScan env arm names = some (b, d)) :
    (∀ n ∈ selectedNames arm.bones,
        n ∈ selectedNames (select_transform_invoke env arm (some names) true giz).1) ∧
    selectedNames (select_transform_invoke env arm (some names) false giz).1
      = [b.name] := by
  have hshift : (select_transform_invoke env arm (some names) true giz).1
      = arm.bones.map fun x =>
          if x.name = b.name then { x with select := true } else x := by
    show (applyPick arm (claymagnetScan env arm names) true giz).1 = _
    rw [h]
    rfl
  have hplain : (select_transform_invoke env arm (some names) false giz).1
      = (arm.bones.map fun x =>
          if x.name = b.name then { x with select := true } else x).map fun x =>
          if x.name = b.name then x else { x with select := false } := by
    show (applyPick arm (claymagnetScan env arm names) false giz).1 = _
    rw [h]
    rfl
  constructor
  · intro n hn
    rw [hshift]
    exact selectedNames_mono_select arm.bones b.name n hn
  · rw [hplain, selectedNames_solo]
    exact filter_name_single arm.bones b.name hnd
      ⟨b, scan_mem env arm names b d h, rfl⟩

/-- Witness for claim C3: bone A is chosen; a shift pick keeps the selected
bone B selected, a plain pick leaves exactly A selected. -/
theorem pick_selection_effect_witness :
    (armW.bones.map Bone.name).Nodup ∧
    claymagnetScan envW armW ["A", "B"] = some (boneA, 25) ∧
    ((∀ n ∈ selectedNames armW.bones,
        n ∈ selectedNames (select_transform_invoke envW armW (some ["A", "B"]) true false).1) ∧
      selectedNames (select_transform_invoke envW armW (some ["A", "B"]) false false).1
        = [boneA.name]) :=
  ⟨by decide, rfl,
    pick_selection_effect envW armW ["A", "B"] false boneA 25 (by decide) rfl⟩

/-! ### Claim C4: the gizmo-user flag controls only the transform -/

/-- Claim C4: for a plain pick that chooses a bone, the translate
interaction is started iff the per-scene gizmo-user flag is off, and the
resulting selection state does not depend on the flag. -/
theorem gizmo_flag_transform_only (env : PickEnv) (arm : Armature)
    (names : List String) (b : Bone) (d : ℚ)
    (h : claymagnetScan env arm names = some (b, d)) :
    (∀ giz : Bool,
        (select_transform_invoke env arm (some names) false giz).2 = !giz) ∧
    (select_transform_invoke env arm (some names) false true).1
      = (select_transform_invoke env arm (some names) false false).1 := by
  constructor
  · intro giz
    show (applyPick arm (claymagnetScan env arm names) false giz).2 = !giz
    rw [h]
    rfl
  · show (applyPick arm (claymagnetScan env arm names) false true).1
      = (applyPick arm (claymagnetScan env arm names) false false).1
    rw [h]
    rfl

/-- Witness for claim C4 at a concrete pick that chooses bone A. -/
theorem gizmo_flag_transform_only_witness :
    claymagnetScan envW armW ["A", "B"] = some (boneA, 25) ∧
    ((∀ giz : Bool,
        (select_transform_invoke envW armW (some ["A", "B"]) false giz).2 = !giz) ∧
      (select_transform_invoke envW armW (some ["A", "B"]) false true).1
        = (select_transform_invoke envW armW (some ["A", "B"]) false false).1) :=
  ⟨rfl, gizmo_flag_transform_only envW armW ["A", "B"] boneA 25 rfl⟩

/-! ### Claim C7: error handling during the scan -/

/-- Claim C7, as stated, is false: a failure while reading the custom
display geometry of a bone does not exclude that candidate. The pick falls
back to the bone head, and here the bone whose custom-shape read raises is
still chosen. -/
theorem custom_shape_error_not_skipped_cex :
    boneC.custom_shape = some shapeBad ∧
    shapeBad.readVerts = .error "AttributeError" ∧
    (claymagnetScan envW armC ["C"]).map (fun p => (p.1.name, p.2)) = some ("C", 25) :=
  ⟨rfl, rfl, by decide⟩

/-- Claim C7 (amended): an exception while reading the custom display
geometry of a bone is caught per-bone (and logged); the candidate then
competes with its skeletal head as anchor instead of being skipped. An
exception outside the custom-shape block, such as a tagged name that no
longer names a bone, does skip the candidate, and the scan continues with
the accumulator unchanged. -/
theorem custom_shape_error_fallback (env : PickEnv) (arm : Armature)
    (b : Bone) (cs : CustomShape) (e : String)
    (acc : Option (Bone × ℚ)) (nm : String)
    (hcs : b.custom_shape = some cs) (he : cs.readVerts = .error e)
    (hmiss : findBone arm nm = none) :
    boneCenter env b = b.head ∧ scanStep env arm acc nm = acc := by
  constructor
  · simp only [boneCenter, hcs, he]
  · refine scanStep_none env arm acc nm ?_
    unfold candBone
    rw [hmiss]

/-- Witness for the amended claim C7: the failing custom shape of bone C
falls back to its head, and the unknown tag name Z is skipped. -/
theorem custom_shape_error_fallback_witness :
    boneC.custom_shape = some shapeBad ∧
    shapeBad.readVerts = .error "AttributeError" ∧
    findBone armC "Z" = none ∧
    (boneCenter envW boneC = boneC.head ∧ scanStep envW armC none "Z" = none) :=
  ⟨rfl, rfl, rfl,
    custom_shape_error_fallback envW armC boneC shapeBad "AttributeError" none "Z"
      rfl rfl rfl⟩

/-! ### Claim C5: tag then untag round-trip -/

/-- Claim C5, as stated, is false: a bone that is both selected and already
tagged loses its tag over the round trip. Concretely, with the entry
containing chest and chest selected, chest is tagged before the round trip
and untagged after it. -/
theorem tag_untag_roundtrip_cex :
    taggedMem (some ["chest"]) "chest" = true ∧
    taggedMem (untagBoneBody (tagBoneBody (some ["chest"]) ["chest"]) ["chest"]) "chest"
      = false := by decide

/-- Claim C5 (amended): running the tag command and then the untag command
on the same selection yields the pre-tag membership with the selected names
removed; in particular the round trip restores the pre-tag membership of
every bone name that was not both selected and already tagged. -/
theorem tag_untag_roundtrip (st : TagState) (sel : List String) (nm : String) :
    taggedMem (untagBoneBody (tagBoneBody st sel) sel) nm
      = (taggedMem st nm && !(sel.contains nm)) := by
  have key : ∀ s : List String,
      (sel.foldl removeName (sel.foldl insertName s)).contains nm
        = (s.contains nm && !(sel.contains nm)) := by
    intro s
    by_cases h1 : nm ∈ s <;> by_cases h2 : nm ∈ sel <;>
      simp [List.contains, List.elem_eq_mem, mem_foldl_removeName,
        mem_foldl_insertName, h1, h2]
  cases st with
  | none =>
    simpa [taggedMem, tagBoneBody, untagBoneBody] using key []
  | some s =>
    simpa [taggedMem, tagBoneBody, untagBoneBody] using key s

/-! ### Claim C6: the filter command -/

/-- Claim C6, as stated, is false when the registry has no entry for the
active armature: the filter command then leaves the selection unchanged
instead of deselecting every bone. Concretely, with no entry, the selected
bone hip stays selected although its name is in no tag set. -/
theorem find_tagged_cex :
    taggedMem none "hip" = false ∧
    (findTaggedExecute (some armObjW) none [boneHip]).state.map Bone.select = [true] := by
  decide

/-- Claim C6 (amended): after the filter command on a valid active
armature, when the registry has an entry for the armature, a bone is
selected iff its name is in that entry (all others are deselected, the bone
list keeping its names); when the registry has no entry the selection is
left unchanged. In both cases the command finishes. -/
theorem find_tagged_selects_exactly_tagged (active : Option SceneObj)
    (st : TagState) (bones : List Bone) (hv : isValidArmature active = true) :
    (findTaggedExecute active st bones).status = .FINISHED ∧
    (∀ s, st = some s →
      (findTaggedExecute active st bones).state.map Bone.name = bones.map Bone.name ∧
      ∀ b ∈ (findTaggedExecute active st bones).state, b.select = s.contains b.name) ∧
    (st = none → (findTaggedExecute active st bones).state = bones) := by
  refine ⟨?_, ?_, ?_⟩
  · simp [findTaggedExecute, hv]
  · rintro s rfl
    constructor
    · simp [findTaggedExecute, hv, findTaggedBody, List.map_map]
    · intro b hb
      simp only [findTaggedExecute, hv, if_true, findTaggedBody, List.mem_map] at hb
      obtain ⟨a, _, rfl⟩ := hb
      rfl
  · rintro rfl
    simp [findTaggedExecute, hv, findTaggedBody]

/-- Witness for the amended claim C6 at a concrete input. -/
theorem find_tagged_selects_exactly_tagged_witness :
    isValidArmature (some armObjW) = true ∧
    ((findTaggedExecute (some armObjW) (some ["hip"]) [boneHip, boneA]).status = .FINISHED ∧
      (∀ s, (some ["hip"] : TagState) = some s →
        (findTaggedExecute (some armObjW) (some ["hip"]) [boneHip, boneA]).state.map Bone.name
            = [boneHip, boneA].map Bone.name ∧
        ∀ b ∈ (findTaggedExecute (some armObjW) (some ["hip"]) [boneHip, boneA]).state,
          b.select = s.contains b.name) ∧
      ((some ["hip"] : TagState) = none →
        (findTaggedExecute (some armObjW) (some ["hip"]) [boneHip, boneA]).state
          = [boneHip, boneA])) :=
  ⟨by decide, find_tagged_selects_exactly_tagged (some armObjW) (some ["hip"])
    [boneHip, boneA] (by decide)⟩

/-! ### Claim C8: invalid-context error handling -/

/-- Claim C8: each of the tag, untag, filter and switch-to-pose-mode
commands, run with an invalid context (no active armature for the first
three, no selected armature for the fourth), reports a user-visible error
message, returns CANCELLED, and leaves its state (tag entry, bone list,
object list) unchanged. -/
theorem invalid_context_reports_and_cancels (active : Option SceneObj)
    (selected : List String) (st : TagState) (bones : List Bone)
    (objs : List SceneObj)
    (hv : isValidArmature active = false)
    (hobjs : ∀ o ∈ objs, ¬ o.objType = "ARMATURE") :
    tagBoneExecute active selected st
        = ⟨.CANCELLED, st, some "Select an armature first!"⟩ ∧
    untagBoneExecute active selected st
        = ⟨.CANCELLED, st, some "Need an armature, buddy!"⟩ ∧
    findTaggedExecute active st bones
        = ⟨.CANCELLED, bones, some "Pick an armature first!"⟩ ∧
    switchPoseModeExecute objs
        = ⟨.CANCELLED, objs, some "Select some armatures first!"⟩ := by
  refine ⟨?_, ?_, ?_, ?_⟩
  · simp [tagBoneExecute, hv]
  · simp [untagBoneExecute, hv]
  · simp [findTaggedExecute, hv]
  · have hfil : objs.filter (fun o => o.objType == "ARMATURE") = [] := by
      rw [List.filter_eq_nil_iff]
      intro o ho
      simpa using hobjs o ho
    simp [switchPoseModeExecute, hfil]

/-- Witness for claim C8 at a concrete input: a mesh object is active and
the only selected object is that mesh. -/
theorem invalid_context_reports_and_cancels_witness :
    isValidArmature (some meshObjW) = false ∧
    (∀ o ∈ [meshObjW], ¬ o.objType = "ARMATURE") ∧
    (tagBoneExecute (some meshObjW) ["hip"] (some ["chest"])
        = ⟨.CANCELLED, some ["chest"], some "Select an armature first!"⟩ ∧
      untagBoneExecute (some meshObjW) ["hip"] (some ["chest"])
        = ⟨.CANCELLED, some ["chest"], some "Need an armature, buddy!"⟩ ∧
      findTaggedExecute (some meshObjW) (some ["chest"]) [boneHip]
        = ⟨.CANCELLED, [boneHip], some "Pick an armature first!"⟩ ∧
      switchPoseModeExecute [meshObjW]
        = ⟨.CANCELLED, [meshObjW], some "Select some armatures first!"⟩) :=
  ⟨by decide, by decide,
    invalid_context_reports_and_cancels (some meshObjW) ["hip"] (some ["chest"])
      [boneHip] [meshObjW] (by decide) (by decide)⟩

/-! ### Claim C9: the preference store -/

/-- Claim C9, as stated, is false: the preference class does not declare
three user-configurable settings. -/
theorem preferences_not_three_settings : ¬ claymagnetPreferencesProps.length = 3 := by
  decide

/-- Claim C9 (amended): the preference store defines exactly two
user-configurable scalar settings (hitbox_size and restrict_pose_mode),
both surfaced through the settings UI by the draw method. -/
theorem preferences_two_settings :
    claymagnetPreferencesProps.length = 2 ∧
    claymagnetPreferencesDrawn = claymagnetPreferencesProps.map PropertyDef.name := by
  decide

/-! ### Claim C10: tagging with an empty selection -/

/-- Claim C10: the tag command on a valid active armature with an empty
pose-bone selection and no pre-existing entry finishes and inserts an empty
entry; a subsequent filter command on that armature deselects every
bone. -/
theorem tag_empty_selection_creates_entry (active : Option SceneObj)
    (st : TagState) (hv : isValidArmature active = true) (h0 : st = none) :
    (tagBoneExecute active [] st).status = .FINISHED ∧
    (tagBoneExecute active [] st).state = some [] ∧
    ∀ bones : List Bone,
      ∀ b ∈ (findTaggedExecute active (tagBoneExecute active [] st).state bones).state,
        b.select = false := by
  subst h0
  refine ⟨by simp [tagBoneExecute, hv], by simp [tagBoneExecute, hv, tagBoneBody], ?_⟩
  intro bones b hb
  simp only [tagBoneExecute, hv, if_true, tagBoneBody, findTaggedExecute,
    findTaggedBody, List.mem_map] at hb
  obtain ⟨a, _, rfl⟩ := hb
  rfl

/-- Witness for claim C10 at a concrete input. -/
theorem tag_empty_selection_creates_entry_witness :
    isValidArmature (some armObjW) = true ∧
    ((tagBoneExecute (some armObjW) [] none).status = .FINISHED ∧
      (tagBoneExecute (some armObjW) [] none).state = some [] ∧
      ∀ bones : List Bone,
        ∀ b ∈ (findTaggedExecute (some armObjW)
            (tagBoneExecute (some armObjW) [] none).state bones).state,
          b.select = false) :=
  ⟨by decide, tag_empty_selection_creates_entry (some armObjW) none (by decide) rfl⟩
